import Mathlib

/-!
Verification of `src/Utils/parseArtBlocksAPI.js`

A shallow embedding of the Art Blocks subgraph client: the two pagination
loops, the single-contract lookup, and the three fan-out aggregators built on
`Promise.all`, followed by theorems about them.

Modelling conventions.

* The urql client is an external collaborator.  It is embedded as an oracle
  `Client`: for the two paginated queries the oracle gives, per contract id,
  the result of the first, second, third ... request of one pagination run;
  for the single-project query it gives the result per contract id and
  project id.
* `while (true)` loops take a `fuel` argument bounding the number of
  iterations; `none` stands for a call that never returns.
* An `async` function yields a promise.  A promise that settles is a
  `Settled` value; `Option (Settled _)` adds the promise that stays pending.
* JavaScript numbers are naturals: every number the module computes is an
  array length or a sum of array lengths, which double precision represents
  exactly below `2 ^ 53`.
-/

namespace ArtBot

/-! ## Data model -/

/-- A project object as selected by the GraphQL queries.  The module never
inspects the fields; it only moves the objects around. -/
structure Project where
  projectId : Nat
  name : String
  invocations : Nat
  maxInvocations : Nat
  curationStatus : String
  contract : String
deriving DecidableEq, Repr

/-- Exceptions that the embedded code can raise. -/
inductive JsError where
  /-- the promise returned by `client.query(..).toPromise()` rejected -/
  | rejection
  /-- a property was read from `undefined` or `null`, or `reduce` was called
  on an empty array without an initial value -/
  | typeError
deriving DecidableEq, Repr

/-- What `await client.query(..).toPromise()` produces, as far as the chain
`result.data.contract.projects` can tell the cases apart. -/
inductive QueryResult where
  /-- the promise rejects -/
  | rejected
  /-- the promise resolves but `result.data` is `undefined` or `null` -/
  | noData
  /-- the field `result.data.contract` is `null` -/
  | noContract
  /-- the field `result.data.contract.projects` is this array -/
  | projects (ps : List Project)
deriving DecidableEq, Repr

/-- The expression `(await client.query(..).toPromise()).data.contract.projects`:
it throws unless the response carries a project array. -/
def QueryResult.dataContractProjects : QueryResult → Except JsError (List Project)
  | .rejected => .error .rejection
  | .noData => .error .typeError
  | .noContract => .error .typeError
  | .projects ps => .ok ps

/-- A request handed to `client.query`: the query document and its variables. -/
inductive Request where
  | contractProjectsMinimal (id : String) (first skip : Nat)
  | contractProject (id : String) (projectId : Nat)
  | contractFactoryProjects (id : String) (first skip : Nat)
deriving DecidableEq, Repr

/-- The subgraph seen through the urql client.  `contractProjectsMinimal id k`
and `contractFactoryProjects id k` are the results of request number `k`
(counted from `0`) of one pagination run against contract `id`;
`contractProject id projectId` is the result of the single-project query. -/
structure Client where
  contractProjectsMinimal : String → Nat → QueryResult
  contractProject : String → Nat → QueryResult
  contractFactoryProjects : String → Nat → QueryResult

/-- How a promise settles. -/
inductive Settled (α : Type) where
  | fulfilled (value : α)
  | rejected (reason : JsError)
deriving DecidableEq, Repr

/-- One call of an `async` function that talks to the client: how its promise
settles and which requests it issued, in order. -/
structure Run (α : Type) where
  result : Settled α
  requests : List Request
deriving DecidableEq, Repr

/-- Values of `_getContractProjectCount` and of the `reduce` over them. -/
inductive JsCount where
  | undefined
  | NaN
  | num (n : Nat)
deriving DecidableEq, Repr

/-- Values of the project lookups, also the elements of a project array. -/
inductive JsProject where
  | undefined
  | null
  | project (p : Project)
deriving DecidableEq, Repr

/-- Values of the factory-project functions: `undefined` or an array. -/
inductive JsList where
  | undefined
  | array (elements : List JsProject)
deriving DecidableEq, Repr

/-- The optional `contractId` argument of `getContractProject`. -/
inductive JsContractId where
  /-- argument omitted -/
  | undefined
  | null
  | str (s : String)
deriving DecidableEq, Repr

/-! ## JavaScript primitives used by the module -/

/-- The call `Object.values(CORE_CONTRACTS)`: the addresses, in property order. -/
def objectValues (CORE_CONTRACTS : List (String × String)) : List String :=
  CORE_CONTRACTS.map Prod.snd

/-- The `+` operator on the values a count can take: `undefined` converts to
`NaN`, and `NaN` absorbs. -/
def jsAdd : JsCount → JsCount → JsCount
  | .num a, .num b => .num (a + b)
  | _, _ => .NaN

/-- The method `Array.prototype.reduce` without an initial value: the first element
seeds the accumulator; an empty array throws a `TypeError`. -/
def reduce {α : Type} (f : α → α → α) : List α → Except JsError α
  | [] => .error .typeError
  | x :: xs => .ok (xs.foldl f x)

/-- The callback `(el) => el !== null && el !== undefined`. -/
def notNullNotUndefined (el : JsProject) : Bool :=
  el != .null && el != .undefined

/-- The method `Array.prototype.find`: the first element satisfying the callback, and
`undefined` when there is none. -/
def find (callback : JsProject → Bool) (xs : List JsProject) : JsProject :=
  match xs.find? callback with
  | some el => el
  | none => .undefined

/-- The call `[].concat.apply(base, args)`: an argument that is an array is spread,
any other argument is appended as a single element. -/
def concatApply (base : List JsProject) (args : List JsList) : List JsProject :=
  args.foldl
    (fun acc a =>
      match a with
      | .array xs => acc ++ xs
      | .undefined => acc ++ [JsProject.undefined])
    base

/-- All slots filled: the values; `none` while a slot is still empty. -/
def filled {α : Type} : List (Option α) → Option (List α)
  | [] => some []
  | none :: _ => none
  | some v :: rest => (filled rest).map (v :: ·)

/-- The settlement loop of `Promise.all`.  `values` has one slot per input
promise.  Promises settle in the order given by `order` (indices into
`promises`): a fulfilment stores the value in the slot of that promise, a
rejection rejects the combined promise at once.  A promise that is `none`
never settles. -/
def promiseAllLoop {α : Type} (promises : List (Option (Settled α))) :
    List Nat → List (Option α) → Option (Settled (List α))
  | [], values => (filled values).map Settled.fulfilled
  | i :: rest, values =>
    match promises.getD i none with
    | some (.rejected e) => some (.rejected e)
    | some (.fulfilled v) => promiseAllLoop promises rest (values.set i (some v))
    | none => promiseAllLoop promises rest values

/-- The call `Promise.all(promises)` when the promises settle in the order `order`:
fulfilled with the values in input order once every promise has fulfilled,
rejected with the first rejection, pending (`none`) otherwise. -/
def promiseAll {α : Type} (promises : List (Option (Settled α))) (order : List Nat) :
    Option (Settled (List α)) :=
  promiseAllLoop promises order (List.replicate promises.length none)

/-! ## The module -/

/-- The constant `maxProjectsPerQuery` of both pagination helpers. -/
def maxProjectsPerQuery : Nat := 1000

/-- The `while (true)` loop of `_getContractProjectCount` inside its `try`.
`call` counts the requests already answered, `sent` logs the requests. -/
def countLoop (client : Client) (contractId : String) :
    Nat → Nat → Nat → List Request → Option (Run JsCount)
  | 0, _, _, _ => none
  | fuel + 1, call, totalProjects, sent =>
    let sent := sent ++ [Request.contractProjectsMinimal contractId maxProjectsPerQuery totalProjects]
    match (client.contractProjectsMinimal contractId call).dataContractProjects with
    | .error _ => some ⟨.fulfilled .undefined, sent⟩
    | .ok projects =>
      let numResults := projects.length
      let totalProjects := totalProjects + numResults
      if numResults ≠ maxProjectsPerQuery then
        some ⟨.fulfilled (.num totalProjects), sent⟩
      else
        countLoop client contractId fuel (call + 1) totalProjects sent

/-- Project count of a single contract, by pagination. -/
def _getContractProjectCount (fuel : Nat) (client : Client) (contractId : String) :
    Option (Run JsCount) :=
  countLoop client contractId fuel 0 0 []

/-- Count of all projects over the core contracts. -/
def getArtBlocksProjectCount (fuel : Nat) (client : Client)
    (CORE_CONTRACTS : List (String × String)) (order : List Nat) : Option (Settled JsCount) :=
  let contractsToGet := objectValues CORE_CONTRACTS
  let promises := contractsToGet.map
    (fun c => (_getContractProjectCount fuel client c).map Run.result)
  match promiseAll promises order with
  | none => none
  | some (.rejected _) => some (.fulfilled .undefined)
  | some (.fulfilled numProjects) =>
    match reduce jsAdd numProjects with
    | .error _ => some (.fulfilled .undefined)
    | .ok total => some (.fulfilled total)

/-- Project lookup on one contract: `null` when the contract has no such
project, `undefined` when an error is caught. -/
def _getContractProject (client : Client) (projectId : Nat) (contractId : String) :
    Run JsProject :=
  let sent := [Request.contractProject contractId projectId]
  match (client.contractProject contractId projectId).dataContractProjects with
  | .error _ => ⟨.fulfilled .undefined, sent⟩
  | .ok projects =>
    if h : projects.length > 0 then
      ⟨.fulfilled (.project projects[0]), sent⟩
    else
      ⟨.fulfilled .null, sent⟩

/-- Project lookup over the core contracts.  Every `_getContractProject` call
issues its request while `map` runs, so the requests go out in Registry
order. -/
def getArtBlocksProject (client : Client) (CORE_CONTRACTS : List (String × String))
    (order : List Nat) (projectNumber : Nat) : Option (Run JsProject) :=
  let contractsToGet := objectValues CORE_CONTRACTS
  let calls := contractsToGet.map (_getContractProject client projectNumber)
  let sent := (calls.map Run.requests).flatten
  match promiseAll (calls.map (fun r => some r.result)) order with
  | none => none
  | some (.rejected _) => some ⟨.fulfilled .undefined, sent⟩
  | some (.fulfilled project) => some ⟨.fulfilled (find notNullNotUndefined project), sent⟩

/-- The public lookup: `!contractId` holds for an omitted argument, for
`null` and for the empty string. -/
def getContractProject (client : Client) (CORE_CONTRACTS : List (String × String))
    (order : List Nat) (projectId : Nat) (contractId : JsContractId) : Option (Run JsProject) :=
  match contractId with
  | .undefined => getArtBlocksProject client CORE_CONTRACTS order projectId
  | .null => getArtBlocksProject client CORE_CONTRACTS order projectId
  | .str s =>
    if s = "" then getArtBlocksProject client CORE_CONTRACTS order projectId
    else some (_getContractProject client projectId s)

/-- The `while (true)` loop of `_getContractFactoryProjects` inside its `try`. -/
def factoryLoop (client : Client) (contractId : String) :
    Nat → Nat → List Project → List Request → Option (Run JsList)
  | 0, _, _, _ => none
  | fuel + 1, call, factoryProjects, sent =>
    let sent := sent ++
      [Request.contractFactoryProjects contractId maxProjectsPerQuery factoryProjects.length]
    match (client.contractFactoryProjects contractId call).dataContractProjects with
    | .error _ => some ⟨.fulfilled .undefined, sent⟩
    | .ok projects =>
      let factoryProjects := factoryProjects ++ projects
      if projects.length ≠ maxProjectsPerQuery then
        some ⟨.fulfilled (.array (factoryProjects.map JsProject.project)), sent⟩
      else
        factoryLoop client contractId fuel (call + 1) factoryProjects sent

/-- Factory projects of a single contract, by pagination. -/
def _getContractFactoryProjects (fuel : Nat) (client : Client) (contractId : String) :
    Option (Run JsList) :=
  factoryLoop client contractId fuel 0 [] []

/-- Factory projects over the core contracts. -/
def getArtBlocksFactoryProjects (fuel : Nat) (client : Client)
    (CORE_CONTRACTS : List (String × String)) (order : List Nat) : Option (Settled JsList) :=
  let contractsToGet := objectValues CORE_CONTRACTS
  let promises := contractsToGet.map
    (fun c => (_getContractFactoryProjects fuel client c).map Run.result)
  match promiseAll promises order with
  | none => none
  | some (.rejected _) => some (.fulfilled .undefined)
  | some (.fulfilled allArrays) => some (.fulfilled (.array (concatApply [] allArrays)))

/-! ## Example sources -/

/-- A project record with the given id on the given contract. -/
def mkProject (contract : String) (projectId : Nat) : Project :=
  ⟨projectId, "p", 0, 0, "factory", contract⟩

/-- A page of `n` project records. -/
def page (n : Nat) : QueryResult :=
  .projects (List.replicate n (mkProject "0xA" 0))

/-- A source answering every pagination run with pages of sizes 1000, 1000, 400. -/
def pagedClient : Client where
  contractProjectsMinimal := fun _ k => if k < 2 then page 1000 else page 400
  contractProject := fun _ _ => .projects []
  contractFactoryProjects := fun _ k => if k < 2 then page 1000 else page 400

/-- A source on which every query succeeds with an empty project list. -/
def emptyClient : Client where
  contractProjectsMinimal := fun _ _ => .projects []
  contractProject := fun _ _ => .projects []
  contractFactoryProjects := fun _ _ => .projects []

/-- A Registry with three contracts. -/
def registryABC : List (String × String) :=
  [("a", "0xA"), ("b", "0xB"), ("c", "0xC")]

/-- A source on which every query succeeds: counts 5, 0 and 12, project 42
only on the third contract, factory lists of one and two projects. -/
def sumClient : Client where
  contractProjectsMinimal := fun id _ =>
    if id = "0xA" then page 5 else if id = "0xB" then page 0 else page 12
  contractProject := fun id projectId =>
    if id = "0xC" ∧ projectId = 42 then .projects [mkProject "0xC" 42] else .projects []
  contractFactoryProjects := fun id _ =>
    if id = "0xA" then .projects [mkProject "0xA" 1]
    else .projects [mkProject "0xB" 2, mkProject "0xB" 3]

/-- A source on which every query for the second contract fails. -/
def failingClient : Client where
  contractProjectsMinimal := fun id _ =>
    if id = "0xA" then page 5 else if id = "0xB" then .rejected else page 12
  contractProject := fun id projectId =>
    if id = "0xC" ∧ projectId = 42 then .projects [mkProject "0xC" 42]
    else if id = "0xB" then .rejected else .projects []
  contractFactoryProjects := fun id _ =>
    if id = "0xA" then .projects [mkProject "0xA" 1]
    else if id = "0xB" then .noContract
    else .projects [mkProject "0xC" 2, mkProject "0xC" 3]

/-- A Registry with two contracts. -/
def registryAB : List (String × String) :=
  [("a", "0xA"), ("b", "0xB")]

/-- A source holding two records for project 7 on contract `0xA` and nothing
else on that contract; the request rejects for `0xB`, the response has no
data for `0xC`, and any other contract is unknown to the subgraph. -/
def lookupClient : Client where
  contractProjectsMinimal := fun _ _ => .noData
  contractProject := fun id projectId =>
    if id = "0xA" then
      (if projectId = 7 then .projects [mkProject "0xA" 7, mkProject "0xA" 8] else .projects [])
    else if id = "0xB" then .rejected
    else if id = "0xC" then .noData
    else .noContract
  contractFactoryProjects := fun _ _ => .noData

/-! ## `Promise.all` -/

/-- Slots that are all filled yield their values. -/
theorem filled_map_some {α : Type} (vs : List α) : filled (vs.map some) = some vs := by
  induction vs with
  | nil => rfl
  | cons v rest ih => simp [filled, ih]

/-- Invariant of the settlement loop when every promise fulfils: each slot is
empty or holds its promise's value, and every empty slot still settles. -/
theorem promiseAllLoop_fulfilled {α : Type} (vs : List α) (order : List Nat) :
    ∀ values : List (Option α), values.length = vs.length →
      (∀ j, j < vs.length → values[j]? = some none ∨ values[j]? = some vs[j]?) →
      (∀ j, j < vs.length → values[j]? = some none → j ∈ order) →
      promiseAllLoop (vs.map (fun v => some (Settled.fulfilled v))) order values
        = some (Settled.fulfilled vs) := by
  induction order with
  | nil =>
    intro values hlen hval hcov
    have hvalues : values = vs.map some := by
      apply List.ext_getElem?
      intro j
      by_cases hj : j < vs.length
      · rcases hval j hj with h | h
        · exact absurd (hcov j hj h) (List.not_mem_nil j)
        · rw [h, List.getElem?_map, List.getElem?_eq_getElem hj]
          rfl
      · have h1 : values[j]? = none := List.getElem?_eq_none (by omega)
        have h2 : (vs.map some)[j]? = none := List.getElem?_eq_none (by simp; omega)
        rw [h1, h2]
    simp [promiseAllLoop, hvalues, filled_map_some]
  | cons i rest ih =>
    intro values hlen hval hcov
    by_cases hi : i < vs.length
    · have hget : (vs.map (fun v => some (Settled.fulfilled v))).getD i none
          = some (Settled.fulfilled vs[i]) := by
        simp [List.getD, hi]
      simp only [promiseAllLoop, hget]
      apply ih
      · simp [hlen]
      · intro j hj
        by_cases hji : i = j
        · subst hji
          right
          simp [List.getElem?_set, hlen, hi]
        · rw [List.getElem?_set_ne hji]
          exact hval j hj
      · intro j hj hnone
        by_cases hji : i = j
        · subst hji
          simp [List.getElem?_set, hlen, hi] at hnone
        · rw [List.getElem?_set_ne hji] at hnone
          have := hcov j hj hnone
          simp at this
          rcases this with h | h
          · exact absurd h.symm hji
          · exact h
    · have hget : (vs.map (fun v => some (Settled.fulfilled v))).getD i none = none := by
        have hnone : vs[i]? = none := List.getElem?_eq_none (by omega)
        simp [List.getD, hnone]
      simp only [promiseAllLoop, hget]
      apply ih values hlen hval
      intro j hj hnone
      have := hcov j hj hnone
      simp at this
      rcases this with h | h
      · omega
      · exact h

/-- When every promise fulfils and every promise settles, `Promise.all`
fulfils with the values in input order, whatever the settlement order. -/
theorem promiseAll_fulfilled {α : Type} (vs : List α) (order : List Nat)
    (hall : ∀ j, j < vs.length → j ∈ order) :
    promiseAll (vs.map (fun v => some (Settled.fulfilled v))) order
      = some (Settled.fulfilled vs) := by
  unfold promiseAll
  apply promiseAllLoop_fulfilled
  · simp
  · intro j hj
    left
    simp [hj]
  · intro j hj _
    exact hall j hj


/-! ## Counting-mode pagination -/

/-- Mapping over `range (m + 1)` splits off the image of `0`. -/
theorem range_succ_map_shift {β : Type} (m : Nat) (f : Nat → β) :
    (List.range (m + 1)).map f = f 0 :: (List.range m).map (fun i => f (i + 1)) := by
  rw [List.range_succ_eq_map]
  simp [List.map_map, Function.comp_def]

/-- The counting loop over `m` full pages followed by one page of another
size `last`: it stops after `m + 1` requests with the total of the sizes. -/
theorem countLoop_run (client : Client) (contractId : String) (last : Nat)
    (hne : last ≠ maxProjectsPerQuery) :
    ∀ (m fuel call totalProjects : Nat) (sent : List Request),
      (∀ i, i < m → ∃ ps, client.contractProjectsMinimal contractId (call + i) = .projects ps
          ∧ ps.length = maxProjectsPerQuery) →
      (∃ ps, client.contractProjectsMinimal contractId (call + m) = .projects ps
          ∧ ps.length = last) →
      m + 1 ≤ fuel →
      countLoop client contractId fuel call totalProjects sent
        = some ⟨.fulfilled (.num (totalProjects + maxProjectsPerQuery * m + last)),
            sent ++ (List.range (m + 1)).map (fun i =>
              Request.contractProjectsMinimal contractId maxProjectsPerQuery
                (totalProjects + maxProjectsPerQuery * i))⟩ := by
  intro m
  induction m with
  | zero =>
    intro fuel call totalProjects sent _ hlast hfuel
    obtain ⟨ps, hps, hlen⟩ := hlast
    obtain ⟨f, rfl⟩ : ∃ f, fuel = f + 1 := ⟨fuel - 1, by omega⟩
    simp only [Nat.add_zero] at hps
    simp [countLoop, hps, QueryResult.dataContractProjects, hlen, hne, List.range_succ]
  | succ m ih =>
    intro fuel call totalProjects sent hfull hlast hfuel
    obtain ⟨f, rfl⟩ : ∃ f, fuel = f + 1 := ⟨fuel - 1, by omega⟩
    obtain ⟨ps, hps, hlen⟩ := hfull 0 (by omega)
    simp only [Nat.add_zero] at hps
    have hrec := ih f (call + 1) (totalProjects + maxProjectsPerQuery)
      (sent ++ [Request.contractProjectsMinimal contractId maxProjectsPerQuery totalProjects])
      (fun i hi => by
        have := hfull (i + 1) (by omega)
        rwa [show call + (i + 1) = call + 1 + i by omega] at this)
      (by rwa [show call + (m + 1) = call + 1 + m by omega] at hlast)
      (by omega)
    rw [countLoop]
    simp only [hps, QueryResult.dataContractProjects, hlen, ne_eq, not_true_eq_false, if_false]
    rw [hrec, range_succ_map_shift (m + 1)]
    simp only [List.append_assoc, List.singleton_append, Nat.mul_zero, Nat.add_zero]
    congr 3
    · congr 2
      rw [Nat.mul_succ]; omega
    · congr 1
      apply List.map_congr_left
      intro i _
      congr 1
      rw [Nat.mul_succ]; omega


/-- A list of sizes whose entries before the last are all 1000. -/
theorem sizes_shape (s : List Nat) (hn : 1 ≤ s.length)
    (hfull : ∀ i, i + 1 < s.length → s[i]? = some 1000) :
    ∃ last, s[s.length - 1]? = some last ∧ s = List.replicate (s.length - 1) 1000 ++ [last] := by
  have hlt : s.length - 1 < s.length := by omega
  refine ⟨s[s.length - 1], List.getElem?_eq_getElem hlt, ?_⟩
  apply List.ext_getElem?
  intro j
  by_cases hj : j + 1 < s.length
  · rw [hfull j hj, List.getElem?_append_left (by simp; omega)]
    rw [List.getElem?_eq_getElem (by simp; omega)]
    simp
  · by_cases hj2 : j = s.length - 1
    · subst hj2
      rw [List.getElem?_append_right (by simp)]
      simp
    · rw [List.getElem?_eq_none (by omega), List.getElem?_eq_none (by simp; omega)]

/-- C1: counting-mode pagination.  If the successive responses of the source
to one contract are project lists of sizes `s`, all 1000 except the last,
then with enough fuel `_getContractProjectCount` returns the number `s.sum`
(not `undefined`) after exactly `s.length` requests, request `i` (from 0)
carrying `first = 1000` and `skip = 1000 * i`. -/
theorem getContractProjectCount_pagination (client : Client) (contractId : String)
    (fuel : Nat) (s : List Nat) (hn : 1 ≤ s.length)
    (hresp : ∀ i, i < s.length → ∃ ps,
      client.contractProjectsMinimal contractId i = .projects ps ∧ some ps.length = s[i]?)
    (hfull : ∀ i, i + 1 < s.length → s[i]? = some 1000)
    (hlast : s[s.length - 1]? ≠ some 1000)
    (hfuel : s.length ≤ fuel) :
    _getContractProjectCount fuel client contractId
      = some ⟨.fulfilled (.num s.sum),
          (List.range s.length).map
            (fun i => Request.contractProjectsMinimal contractId 1000 (1000 * i))⟩ := by
  obtain ⟨last, hl, hs⟩ := sizes_shape s hn hfull
  have hne : last ≠ maxProjectsPerQuery := by
    intro h
    apply hlast
    rw [hl, h]
    rfl
  have hrun := countLoop_run client contractId last hne (s.length - 1) fuel 0 0 []
    (fun i hi => by
      obtain ⟨ps, hps, hlen⟩ := hresp i (by omega)
      refine ⟨ps, by simpa using hps, ?_⟩
      rw [hfull i (by omega)] at hlen
      simpa [maxProjectsPerQuery] using hlen)
    (by
      obtain ⟨ps, hps, hlen⟩ := hresp (s.length - 1) (by omega)
      refine ⟨ps, by simpa using hps, ?_⟩
      rw [hl] at hlen
      simpa using hlen)
    (by omega)
  have hsum : s.sum = 0 + maxProjectsPerQuery * (s.length - 1) + last := by
    conv_lhs => rw [hs]
    simp [maxProjectsPerQuery, Nat.mul_comm]
  unfold _getContractProjectCount
  rw [hrun, hsum, show s.length - 1 + 1 = s.length by omega]
  simp [maxProjectsPerQuery]

/-- C1 at sizes `[1000, 1000, 400]` (three requests, skips 0, 1000, 2000,
count 2400) and at sizes `[0]` (one request, count 0). -/
theorem getContractProjectCount_pagination_witness :
    _getContractProjectCount 3 pagedClient "0xA"
        = some ⟨.fulfilled (.num 2400),
            [.contractProjectsMinimal "0xA" 1000 0, .contractProjectsMinimal "0xA" 1000 1000,
              .contractProjectsMinimal "0xA" 1000 2000]⟩
      ∧ _getContractProjectCount 1 emptyClient "0xA"
        = some ⟨.fulfilled (.num 0), [.contractProjectsMinimal "0xA" 1000 0]⟩ := by
  constructor
  · exact getContractProjectCount_pagination pagedClient "0xA" 3 [1000, 1000, 400] (by decide)
      (by
        intro i hi
        have : i = 0 ∨ i = 1 ∨ i = 2 := by simp at hi; omega
        rcases this with rfl | rfl | rfl
        · exact ⟨_, rfl, congrArg some (List.length_replicate 1000 _)⟩
        · exact ⟨_, rfl, congrArg some (List.length_replicate 1000 _)⟩
        · exact ⟨_, rfl, congrArg some (List.length_replicate 400 _)⟩)
      (by
        intro i hi
        have : i = 0 ∨ i = 1 := by simp at hi; omega
        rcases this with rfl | rfl <;> rfl)
      (by decide) (by decide)
  · exact getContractProjectCount_pagination emptyClient "0xA" 1 [0] (by decide)
      (by
        intro i hi
        have : i = 0 := by simp at hi; omega
        subst this
        exact ⟨[], rfl, rfl⟩)
      (by intro i hi; simp at hi)
      (by decide) (by decide)

/-! ## Collecting-mode pagination -/

/-- The collecting loop over pages that are all full except the last one: it
stops after one request per page with all pages appended to the items
collected so far; each request skips what has been collected. -/
theorem factoryLoop_run (client : Client) (contractId : String) :
    ∀ (pages : List (List Project)) (fuel call : Nat) (factoryProjects : List Project)
      (sent : List Request),
      1 ≤ pages.length →
      (∀ i, i < pages.length → ∃ ps,
        client.contractFactoryProjects contractId (call + i) = .projects ps ∧ pages[i]? = some ps) →
      (∀ i, i + 1 < pages.length → pages[i]?.map List.length = some maxProjectsPerQuery) →
      pages[pages.length - 1]?.map List.length ≠ some maxProjectsPerQuery →
      pages.length ≤ fuel →
      factoryLoop client contractId fuel call factoryProjects sent
        = some ⟨.fulfilled (.array ((factoryProjects ++ pages.flatten).map JsProject.project)),
            sent ++ (List.range pages.length).map (fun i =>
              Request.contractFactoryProjects contractId maxProjectsPerQuery
                (factoryProjects.length + ((pages.take i).map List.length).sum))⟩ := by
  intro pages
  induction pages with
  | nil => intro _ _ _ _ h; simp at h
  | cons p rest ih =>
    intro fuel call factoryProjects sent _ hresp hfull hlast hfuel
    obtain ⟨f, rfl⟩ : ∃ f, fuel = f + 1 := ⟨fuel - 1, by simp at hfuel; omega⟩
    obtain ⟨ps, hps, hp⟩ := hresp 0 (by simp)
    simp only [Nat.add_zero, List.getElem?_cons_zero, Option.some.injEq] at hps hp
    subst hp
    rw [factoryLoop]
    simp only [hps, QueryResult.dataContractProjects]
    cases rest with
    | nil =>
      have hne : p.length ≠ maxProjectsPerQuery := by
        intro h
        apply hlast
        simp [h]
      simp [hne, List.range_succ]
    | cons q rest2 =>
      have hfullp : p.length = maxProjectsPerQuery := by
        have := hfull 0 (by simp)
        simpa using this
      have hrec := ih f (call + 1) (factoryProjects ++ p)
        (sent ++ [Request.contractFactoryProjects contractId maxProjectsPerQuery
          factoryProjects.length])
        (by simp)
        (fun i hi => by
          obtain ⟨qs, hqs, hq⟩ := hresp (i + 1) (by simp at hi ⊢; omega)
          refine ⟨qs, ?_, ?_⟩
          · rwa [show call + (i + 1) = call + 1 + i by omega] at hqs
          · simpa using hq)
        (fun i hi => by
          have := hfull (i + 1) (by simp at hi ⊢; omega)
          simpa using this)
        (by simpa using hlast)
        (by simp at hfuel ⊢; omega)
      simp only [hfullp, ne_eq, not_true_eq_false, if_false]
      rw [hrec, show (p :: q :: rest2).length = (q :: rest2).length + 1 from rfl,
        range_succ_map_shift (q :: rest2).length]
      simp only [List.append_assoc, List.singleton_append, List.flatten_cons, List.take_zero,
        List.map_nil, List.sum_nil, Nat.add_zero, List.take_succ_cons, List.map_cons,
        List.sum_cons, List.length_append]
      simp only [Nat.add_assoc]

/-- C6: collecting-mode pagination.  If the successive responses of the source
to one contract are the pages `pages`, all of length 1000 except the last,
then with enough fuel `_getContractFactoryProjects` returns the array
`pages.flatten` (every item of every page, in arrival order) after exactly
`pages.length` requests, request `i` (from 0) carrying `first = 1000` and
`skip` equal to the total length of the pages before it. -/
theorem getContractFactoryProjects_pagination (client : Client) (contractId : String)
    (fuel : Nat) (pages : List (List Project)) (hn : 1 ≤ pages.length)
    (hresp : ∀ i, i < pages.length → ∃ ps,
      client.contractFactoryProjects contractId i = .projects ps ∧ pages[i]? = some ps)
    (hfull : ∀ i, i + 1 < pages.length → pages[i]?.map List.length = some 1000)
    (hlast : pages[pages.length - 1]?.map List.length ≠ some 1000)
    (hfuel : pages.length ≤ fuel) :
    _getContractFactoryProjects fuel client contractId
      = some ⟨.fulfilled (.array (pages.flatten.map JsProject.project)),
          (List.range pages.length).map (fun i =>
            Request.contractFactoryProjects contractId 1000
              ((pages.take i).map List.length).sum)⟩ := by
  have hrun := factoryLoop_run client contractId pages fuel 0 [] [] hn
    (fun i hi => by simpa using hresp i hi) hfull hlast hfuel
  unfold _getContractFactoryProjects
  rw [hrun]
  simp [maxProjectsPerQuery]

/-- C6 at pages of sizes 1000, 1000 and 400. -/
theorem getContractFactoryProjects_pagination_witness :
    _getContractFactoryProjects 3 pagedClient "0xA"
      = some ⟨.fulfilled (.array
            ((List.replicate 1000 (mkProject "0xA" 0) ++ (List.replicate 1000 (mkProject "0xA" 0)
              ++ List.replicate 400 (mkProject "0xA" 0))).map JsProject.project)),
          [.contractFactoryProjects "0xA" 1000 0, .contractFactoryProjects "0xA" 1000 1000,
            .contractFactoryProjects "0xA" 1000 2000]⟩ := by
  have h := getContractFactoryProjects_pagination pagedClient "0xA" 3
    [List.replicate 1000 (mkProject "0xA" 0), List.replicate 1000 (mkProject "0xA" 0),
      List.replicate 400 (mkProject "0xA" 0)] (Nat.le_add_left 1 2)
    (by
      intro i hi
      have hi3 : i < 3 := hi
      have : i = 0 ∨ i = 1 ∨ i = 2 := by omega
      rcases this with rfl | rfl | rfl
      · exact ⟨_, rfl, rfl⟩
      · exact ⟨_, rfl, rfl⟩
      · exact ⟨_, rfl, rfl⟩)
    (by
      intro i hi
      have hi3 : i + 1 < 3 := hi
      have : i = 0 ∨ i = 1 := by omega
      rcases this with rfl | rfl
      · exact congrArg some (List.length_replicate 1000 _)
      · exact congrArg some (List.length_replicate 1000 _))
    (by
      intro h
      have h2 : some (List.replicate 400 (mkProject "0xA" 0)).length = some 1000 := h
      rw [List.length_replicate] at h2
      exact absurd h2 (by decide))
    (Nat.le_refl 3)
  rw [h]
  simp only [List.flatten_cons, List.flatten_nil, List.append_nil, List.length_cons,
    List.length_nil, List.range_succ, List.range_zero, List.nil_append, List.map_append,
    List.map_cons, List.map_nil, List.take_zero, List.take_succ_cons, List.sum_cons, List.sum_nil,
    List.length_replicate, List.cons_append, Nat.zero_add, Nat.add_zero, Nat.reduceAdd]

/-! ## Sum-count aggregation -/

/-- Adding numbers to a number accumulator is arithmetic addition. -/
theorem foldl_jsAdd_num (xs : List Nat) :
    ∀ a : Nat, (xs.map JsCount.num).foldl jsAdd (.num a) = .num (a + xs.sum) := by
  induction xs with
  | nil => intro a; rfl
  | cons x rest ih =>
    intro a
    simp only [List.map_cons, List.foldl_cons, jsAdd, ih, List.sum_cons, Nat.add_assoc]

/-- The `reduce` over a non-empty array of numbers is their sum. -/
theorem reduce_jsAdd_num (counts : List Nat) (hne : counts ≠ []) :
    reduce jsAdd (counts.map JsCount.num) = .ok (.num counts.sum) := by
  cases counts with
  | nil => exact absurd rfl hne
  | cons c rest => simp [reduce, foldl_jsAdd_num]

/-- C7: sum-count aggregation.  On a non-empty Registry whose contracts'
counting fetches fulfil with the numbers `counts` (in Registry order),
`getArtBlocksProjectCount` returns `counts.sum`, whatever the order in which
the fetches settle. -/
theorem getArtBlocksProjectCount_sum (fuel : Nat) (client : Client)
    (CORE_CONTRACTS : List (String × String)) (order : List Nat) (counts : List Nat)
    (hne : CORE_CONTRACTS ≠ [])
    (hok : (objectValues CORE_CONTRACTS).map
        (fun c => (_getContractProjectCount fuel client c).map Run.result)
      = counts.map (fun n => some (Settled.fulfilled (JsCount.num n))))
    (hall : ∀ k, k < CORE_CONTRACTS.length → k ∈ order) :
    getArtBlocksProjectCount fuel client CORE_CONTRACTS order
      = some (.fulfilled (.num counts.sum)) := by
  have hlen : counts.length = CORE_CONTRACTS.length := by
    have := congrArg List.length hok
    simpa [objectValues] using this.symm
  have hcne : counts ≠ [] := by
    intro h
    rw [h] at hlen
    exact hne (List.length_eq_zero.mp hlen.symm)
  have hmap : counts.map (fun n => some (Settled.fulfilled (JsCount.num n)))
      = (counts.map JsCount.num).map (fun v => some (Settled.fulfilled v)) := by
    simp [List.map_map, Function.comp_def]
  have hpa := promiseAll_fulfilled (counts.map JsCount.num) order
    (by intro j hj; apply hall; simpa [hlen] using hj)
  unfold getArtBlocksProjectCount
  simp only [hok, hmap, hpa, reduce_jsAdd_num counts hcne]

/-- C7 at counts 5, 0 and 12: the total is 17. -/
theorem getArtBlocksProjectCount_sum_witness :
    getArtBlocksProjectCount 1 sumClient registryABC [2, 0, 1] = some (.fulfilled (.num 17)) :=
  getArtBlocksProjectCount_sum 1 sumClient registryABC [2, 0, 1] [5, 0, 12]
    (by decide) (by decide) (by decide)

/-- The value `NaN` absorbs every further addition. -/
theorem foldl_jsAdd_NaN (xs : List JsCount) : xs.foldl jsAdd .NaN = .NaN := by
  induction xs with
  | nil => rfl
  | cons x rest ih => simpa [List.foldl_cons, jsAdd] using ih

/-- Adding a list that holds `undefined` to any accumulator gives `NaN`. -/
theorem foldl_jsAdd_undefined_mem (xs : List JsCount) :
    ∀ a : JsCount, JsCount.undefined ∈ xs → xs.foldl jsAdd a = .NaN := by
  induction xs with
  | nil => intro a h; simp at h
  | cons x rest ih =>
    intro a h
    rw [List.foldl_cons]
    rcases List.mem_cons.mp h with h | h
    · subst h
      have : jsAdd a .undefined = .NaN := by cases a <;> rfl
      rw [this, foldl_jsAdd_NaN]
    · exact ih _ h

/-- With two or more contracts, a failed count (`undefined`) turns the sum
into `NaN`. -/
theorem reduce_jsAdd_undefined (outcomes : List JsCount) (hlen : 2 ≤ outcomes.length)
    (hfail : JsCount.undefined ∈ outcomes) : reduce jsAdd outcomes = .ok .NaN := by
  match outcomes, hlen, hfail with
  | x :: y :: rest, _, hfail =>
    simp only [reduce]
    rcases List.mem_cons.mp hfail with h | h
    · subst h
      rw [List.foldl_cons]
      have : jsAdd .undefined y = .NaN := rfl
      rw [this, foldl_jsAdd_NaN]
    · exact congrArg _ (foldl_jsAdd_undefined_mem _ _ h)

/-- The count aggregate in terms of the per-contract outcomes: the `reduce`
over them, and `undefined` when `reduce` throws. -/
theorem getArtBlocksProjectCount_of_outcomes (fuel : Nat) (client : Client)
    (CORE_CONTRACTS : List (String × String)) (order : List Nat) (outcomes : List JsCount)
    (hout : (objectValues CORE_CONTRACTS).map
        (fun c => (_getContractProjectCount fuel client c).map Run.result)
      = outcomes.map (fun v => some (Settled.fulfilled v)))
    (hall : ∀ k, k < CORE_CONTRACTS.length → k ∈ order) :
    getArtBlocksProjectCount fuel client CORE_CONTRACTS order
      = match reduce jsAdd outcomes with
        | .error _ => some (.fulfilled .undefined)
        | .ok total => some (.fulfilled total) := by
  have hlen : outcomes.length = CORE_CONTRACTS.length := by
    have := congrArg List.length hout
    simpa [objectValues] using this.symm
  have hpa := promiseAll_fulfilled outcomes order
    (by intro j hj; apply hall; simpa [hlen] using hj)
  unfold getArtBlocksProjectCount
  simp only [hout, hpa]

/-- C2: sum-count failure propagation, evaluated on the code.  With contracts
A, B, C where A counts 5, B's request rejects (so its fetch returns
`undefined`) and C counts 12, `getArtBlocksProjectCount` returns `NaN`, not
`undefined`. -/
theorem getArtBlocksProjectCount_failure_yields_NaN :
    _getContractProjectCount 1 failingClient "0xB"
        = some ⟨.fulfilled .undefined, [.contractProjectsMinimal "0xB" 1000 0]⟩
      ∧ getArtBlocksProjectCount 1 failingClient registryABC [0, 1, 2]
        = some (.fulfilled .NaN)
      ∧ getArtBlocksProjectCount 1 failingClient registryABC [0, 1, 2]
        ≠ some (.fulfilled .undefined) := by
  have h := getArtBlocksProjectCount_of_outcomes 1 failingClient registryABC [0, 1, 2]
    [.num 5, .undefined, .num 12] (by decide) (by decide)
  rw [reduce_jsAdd_undefined _ (by decide) (by decide)] at h
  refine ⟨by decide, h, ?_⟩
  rw [h]
  decide

/-! ## Concatenate-all aggregation -/

/-- Concatenating arrays only spreads each of them in turn. -/
theorem concatApply_arrays (lists : List (List Project)) :
    ∀ base : List JsProject,
      concatApply base (lists.map (fun L => JsList.array (L.map JsProject.project)))
        = base ++ lists.flatten.map JsProject.project := by
  induction lists with
  | nil => intro base; simp [concatApply]
  | cons L rest ih =>
    intro base
    have := ih (base ++ L.map JsProject.project)
    simp only [concatApply, List.map_cons, List.foldl_cons] at this ⊢
    rw [this]
    simp

/-- C8: concatenation order.  On a Registry whose contracts' collecting
fetches fulfil with the arrays `lists` (in Registry order),
`getArtBlocksFactoryProjects` returns `lists.flatten`: the lists in Registry
order, each contiguous and in its own order, whatever the order in which the
fetches settle. -/
theorem getArtBlocksFactoryProjects_concat (fuel : Nat) (client : Client)
    (CORE_CONTRACTS : List (String × String)) (order : List Nat) (lists : List (List Project))
    (hok : (objectValues CORE_CONTRACTS).map
        (fun c => (_getContractFactoryProjects fuel client c).map Run.result)
      = lists.map (fun L => some (Settled.fulfilled (JsList.array (L.map JsProject.project)))))
    (hall : ∀ k, k < CORE_CONTRACTS.length → k ∈ order) :
    getArtBlocksFactoryProjects fuel client CORE_CONTRACTS order
      = some (.fulfilled (.array (lists.flatten.map JsProject.project))) := by
  have hlen : lists.length = CORE_CONTRACTS.length := by
    have := congrArg List.length hok
    simpa [objectValues] using this.symm
  have hmap : lists.map (fun L => some (Settled.fulfilled (JsList.array (L.map JsProject.project))))
      = (lists.map (fun L => JsList.array (L.map JsProject.project))).map
          (fun v => some (Settled.fulfilled v)) := by
    simp [List.map_map, Function.comp_def]
  have hpa := promiseAll_fulfilled (lists.map (fun L => JsList.array (L.map JsProject.project)))
    order (by intro j hj; apply hall; simpa [hlen] using hj)
  unfold getArtBlocksFactoryProjects
  simp only [hok, hmap, hpa, concatApply_arrays, List.nil_append]

/-- C8 at contracts A and B returning `[p1]` and `[p2, p3]`, B settling first. -/
theorem getArtBlocksFactoryProjects_concat_witness :
    getArtBlocksFactoryProjects 1 sumClient registryAB [1, 0]
      = some (.fulfilled (.array [.project (mkProject "0xA" 1), .project (mkProject "0xB" 2),
          .project (mkProject "0xB" 3)])) :=
  getArtBlocksFactoryProjects_concat 1 sumClient registryAB [1, 0]
    [[mkProject "0xA" 1], [mkProject "0xB" 2, mkProject "0xB" 3]] (by decide) (by decide)

/-- C3: concatenate-all failure propagation, evaluated on the code.  With
contracts A, B, C where B's response lacks the contract (so its fetch returns
`undefined`), `getArtBlocksFactoryProjects` returns an array holding A's
project, an `undefined` element and C's projects, not `undefined`. -/
theorem getArtBlocksFactoryProjects_failure_yields_array :
    _getContractFactoryProjects 1 failingClient "0xB"
        = some ⟨.fulfilled .undefined, [.contractFactoryProjects "0xB" 1000 0]⟩
      ∧ getArtBlocksFactoryProjects 1 failingClient registryABC [0, 1, 2]
        = some (.fulfilled (.array [.project (mkProject "0xA" 1), .undefined,
            .project (mkProject "0xC" 2), .project (mkProject "0xC" 3)]))
      ∧ getArtBlocksFactoryProjects 1 failingClient registryABC [0, 1, 2]
        ≠ some (.fulfilled .undefined) := by
  decide

/-! ## Project lookup -/

/-- The promise of `_getContractProject` always fulfils. -/
theorem getContractProject_settles (client : Client) (projectId : Nat) (contractId : String) :
    ∃ v, (_getContractProject client projectId contractId).result = .fulfilled v := by
  unfold _getContractProject
  cases (client.contractProject contractId projectId).dataContractProjects with
  | error e => exact ⟨_, rfl⟩
  | ok projects =>
    by_cases h : projects.length > 0
    · simp only [h, dite_true]; exact ⟨_, rfl⟩
    · simp only [h, dite_false]; exact ⟨_, rfl⟩

/-- Runs whose promises all fulfil, seen as the list of their values. -/
theorem exists_values {α : Type} (runs : List (Run α))
    (h : ∀ r, r ∈ runs → ∃ v, r.result = .fulfilled v) :
    ∃ vs : List α, runs.map (fun r => some r.result) = vs.map (fun v => some (Settled.fulfilled v))
      ∧ runs.map Run.result = vs.map Settled.fulfilled := by
  induction runs with
  | nil => exact ⟨[], rfl, rfl⟩
  | cons r rest ih =>
    obtain ⟨vs, h1, h2⟩ := ih (fun r hr => h r (List.mem_cons_of_mem _ hr))
    obtain ⟨v, hv⟩ := h r (List.mem_cons_self _ _)
    exact ⟨v :: vs, by simp [h1, hv], by simp [h2, hv]⟩

/-- The lookup aggregate in terms of the per-contract outcomes: `find` over
their values, with one request per contract in Registry order. -/
theorem getArtBlocksProject_of_outcomes (client : Client)
    (CORE_CONTRACTS : List (String × String)) (order : List Nat) (projectNumber : Nat)
    (hall : ∀ k, k < CORE_CONTRACTS.length → k ∈ order) :
    ∃ vs : List JsProject,
      (objectValues CORE_CONTRACTS).map
          (fun c => (_getContractProject client projectNumber c).result)
        = vs.map Settled.fulfilled
      ∧ getArtBlocksProject client CORE_CONTRACTS order projectNumber
        = some ⟨.fulfilled (find notNullNotUndefined vs),
            (objectValues CORE_CONTRACTS).map (fun c => Request.contractProject c projectNumber)⟩ := by
  obtain ⟨vs, h1, h2⟩ := exists_values
    ((objectValues CORE_CONTRACTS).map (_getContractProject client projectNumber))
    (by
      intro r hr
      obtain ⟨c, _, rfl⟩ := List.mem_map.mp hr
      exact getContractProject_settles client projectNumber c)
  have hlen : vs.length = CORE_CONTRACTS.length := by
    have := congrArg List.length h2
    simpa [objectValues] using this.symm
  have hpa := promiseAll_fulfilled vs order (by intro j hj; apply hall; simpa [hlen] using hj)
  have hreq : (((objectValues CORE_CONTRACTS).map (_getContractProject client projectNumber)).map
      Run.requests).flatten
      = (objectValues CORE_CONTRACTS).map (fun c => Request.contractProject c projectNumber) := by
    generalize objectValues CORE_CONTRACTS = cs
    induction cs with
    | nil => rfl
    | cons c rest ih =>
      have hc : (_getContractProject client projectNumber c).requests
          = [Request.contractProject c projectNumber] := by
        unfold _getContractProject
        cases (client.contractProject c projectNumber).dataContractProjects with
        | error e => rfl
        | ok projects =>
          by_cases h : projects.length > 0
          · simp only [h, dite_true]
          · simp only [h, dite_false]
      simp only [List.map_cons, List.flatten_cons, hc, ih, List.singleton_append]
  refine ⟨vs, by simpa [List.map_map, Function.comp_def] using h2, ?_⟩
  unfold getArtBlocksProject
  simp only [h1, hpa, hreq]

/-- The method `find` returns the first project of the array when only `null` and
`undefined` stand before it. -/
theorem find_first_project (vs : List JsProject) :
    ∀ (k : Nat) (p : Project), vs[k]? = some (.project p) →
      (∀ j, j < k → ∀ q, vs[j]? ≠ some (.project q)) →
      find notNullNotUndefined vs = .project p := by
  induction vs with
  | nil => intro k p h; simp at h
  | cons v rest ih =>
    intro k p hk hbefore
    cases k with
    | zero =>
      simp only [List.getElem?_cons_zero, Option.some.injEq] at hk
      subst hk
      have hp : notNullNotUndefined (.project p) = true := rfl
      simp only [find, List.find?, hp]
    | succ k =>
      have hv : notNullNotUndefined v = false := by
        have := hbefore 0 (by omega)
        cases v with
        | undefined => rfl
        | null => rfl
        | project q => exact absurd (by simp) (this q)
      have hrec := ih k p (by simpa using hk)
        (fun j hj q => by simpa using hbefore (j + 1) (by omega) q)
      simp only [find, List.find?, hv] at hrec ⊢
      exact hrec

/-- The method `find` over an array of `null`s gives `undefined`. -/
theorem find_none_of_null (vs : List JsProject) (h : ∀ v, v ∈ vs → v = JsProject.null) :
    find notNullNotUndefined vs = .undefined := by
  induction vs with
  | nil => rfl
  | cons v rest ih =>
    have hv : v = .null := h v (List.mem_cons_self _ _)
    subst hv
    have hrec := ih (fun v hv => h v (List.mem_cons_of_mem _ hv))
    simp only [find, List.find?] at hrec ⊢
    exact hrec

/-- C5: first-match selection.  If the lookup outcome of the contract at
Registry position `k` is the project record `p` and no contract before it has
a record as outcome, `getArtBlocksProject` returns `p`, whatever the order in
which the lookups settle. -/
theorem getArtBlocksProject_first_match (client : Client)
    (CORE_CONTRACTS : List (String × String)) (order : List Nat) (projectNumber : Nat)
    (k : Nat) (p : Project)
    (hall : ∀ j, j < CORE_CONTRACTS.length → j ∈ order)
    (hk : ((objectValues CORE_CONTRACTS).map
        (fun c => (_getContractProject client projectNumber c).result))[k]?
      = some (.fulfilled (.project p)))
    (hbefore : ∀ j, j < k → ∀ q, ((objectValues CORE_CONTRACTS).map
        (fun c => (_getContractProject client projectNumber c).result))[j]?
      ≠ some (.fulfilled (.project q))) :
    (getArtBlocksProject client CORE_CONTRACTS order projectNumber).map Run.result
      = some (.fulfilled (.project p)) := by
  obtain ⟨vs, hvs, hrun⟩ :=
    getArtBlocksProject_of_outcomes client CORE_CONTRACTS order projectNumber hall
  rw [hvs] at hk hbefore
  have hinj : ∀ (j : Nat) (q : Project),
      (vs.map Settled.fulfilled)[j]? = some (.fulfilled (.project q)) ↔ vs[j]? = some (.project q) := by
    intro j q
    rw [List.getElem?_map]
    cases vs[j]? <;> simp
  rw [hrun]
  simp only [Option.map_some']
  rw [find_first_project vs k p ((hinj k p).mp hk)
    (fun j hj q h => hbefore j hj q ((hinj j q).mpr h))]

/-- C5 at Registry A, B, C with project 42 only on C (A answers empty, B
fails), the lookups settling in the order B, C, A. -/
theorem getArtBlocksProject_first_match_witness :
    (getArtBlocksProject failingClient registryABC [1, 2, 0] 42).map Run.result
      = some (.fulfilled (.project (mkProject "0xC" 42))) :=
  getArtBlocksProject_first_match failingClient registryABC [1, 2, 0] 42 2 (mkProject "0xC" 42)
    (by decide) (by decide)
    (by
      intro j hj q h
      have hj2 : j = 0 ∨ j = 1 := by omega
      rcases hj2 with rfl | rfl
      · have h0 : ((objectValues registryABC).map
            (fun c => (_getContractProject failingClient 42 c).result))[0]?
            = some (.fulfilled .null) := by decide
        rw [h0] at h
        cases h
      · have h1 : ((objectValues registryABC).map
            (fun c => (_getContractProject failingClient 42 c).result))[1]?
            = some (.fulfilled .undefined) := by decide
        rw [h1] at h
        cases h)

/-- One call of `_getContractProject` issues exactly one request. -/
theorem getContractProject_requests (client : Client) (projectId : Nat) (contractId : String) :
    (_getContractProject client projectId contractId).requests
      = [Request.contractProject contractId projectId] := by
  unfold _getContractProject
  cases (client.contractProject contractId projectId).dataContractProjects with
  | error e => rfl
  | ok projects =>
    by_cases h : projects.length > 0
    · simp only [h, dite_true]
    · simp only [h, dite_false]

/-- C4 as stated fails: on a Registry of three contracts that all answer
with an empty list, every per-contract outcome is `null`, yet the aggregate
is `undefined`, not `null`. -/
theorem getArtBlocksProject_absent_not_null :
    (∀ c, c ∈ objectValues registryABC →
        (_getContractProject emptyClient 999 c).result = .fulfilled .null)
      ∧ (getArtBlocksProject emptyClient registryABC [0, 1, 2] 999).map Run.result
        = some (.fulfilled .undefined)
      ∧ (getArtBlocksProject emptyClient registryABC [0, 1, 2] 999).map Run.result
        ≠ some (.fulfilled .null) := by
  decide

/-- C4, amended: when every contract's lookup succeeds with an empty result
(each per-contract outcome is `null`), `getArtBlocksProject` returns
`undefined`, the value that also signals failure. -/
theorem getArtBlocksProject_absent_undefined (client : Client)
    (CORE_CONTRACTS : List (String × String)) (order : List Nat) (projectNumber : Nat)
    (hall : ∀ j, j < CORE_CONTRACTS.length → j ∈ order)
    (hnull : ∀ c, c ∈ objectValues CORE_CONTRACTS →
      (_getContractProject client projectNumber c).result = .fulfilled .null) :
    (getArtBlocksProject client CORE_CONTRACTS order projectNumber).map Run.result
      = some (.fulfilled .undefined) := by
  obtain ⟨vs, hvs, hrun⟩ :=
    getArtBlocksProject_of_outcomes client CORE_CONTRACTS order projectNumber hall
  have hvnull : ∀ v, v ∈ vs → v = JsProject.null := by
    intro v hv
    have hmem : Settled.fulfilled v ∈ (objectValues CORE_CONTRACTS).map
        (fun c => (_getContractProject client projectNumber c).result) := by
      rw [hvs]
      exact List.mem_map_of_mem _ hv
    obtain ⟨c, hc, hcv⟩ := List.mem_map.mp hmem
    rw [hnull c hc] at hcv
    cases hcv
    rfl
  rw [hrun]
  simp only [Option.map_some', find_none_of_null vs hvnull]

/-- C4 amended, at project 999 on three contracts that all answer empty. -/
theorem getArtBlocksProject_absent_undefined_witness :
    (getArtBlocksProject emptyClient registryABC [2, 1, 0] 999).map Run.result
      = some (.fulfilled .undefined) :=
  getArtBlocksProject_absent_undefined emptyClient registryABC [2, 1, 0] 999
    (by decide) (by decide)

/-- C9: single-contract lookup.  `_getContractProject` returns the first
element of a non-empty project list (ignoring the rest) and `null` for an
empty list; it returns `undefined` when the request rejects, when the
response has no `data`, and when `data.contract` is `null`; it issues one
request and its promise never rejects. -/
theorem getContractProject_lookup (client : Client) (projectId : Nat) (contractId : String) :
    (∀ p rest, client.contractProject contractId projectId = .projects (p :: rest) →
        _getContractProject client projectId contractId
          = ⟨.fulfilled (.project p), [.contractProject contractId projectId]⟩)
      ∧ (client.contractProject contractId projectId = .projects [] →
        _getContractProject client projectId contractId
          = ⟨.fulfilled .null, [.contractProject contractId projectId]⟩)
      ∧ (client.contractProject contractId projectId = .rejected →
        _getContractProject client projectId contractId
          = ⟨.fulfilled .undefined, [.contractProject contractId projectId]⟩)
      ∧ (client.contractProject contractId projectId = .noData →
        _getContractProject client projectId contractId
          = ⟨.fulfilled .undefined, [.contractProject contractId projectId]⟩)
      ∧ (client.contractProject contractId projectId = .noContract →
        _getContractProject client projectId contractId
          = ⟨.fulfilled .undefined, [.contractProject contractId projectId]⟩)
      ∧ (∀ e, (_getContractProject client projectId contractId).result ≠ .rejected e) := by
  refine ⟨?_, ?_, ?_, ?_, ?_, ?_⟩
  · intro p rest h
    simp [_getContractProject, h, QueryResult.dataContractProjects]
  · intro h
    simp [_getContractProject, h, QueryResult.dataContractProjects]
  · intro h
    simp [_getContractProject, h, QueryResult.dataContractProjects]
  · intro h
    simp [_getContractProject, h, QueryResult.dataContractProjects]
  · intro h
    simp [_getContractProject, h, QueryResult.dataContractProjects]
  · intro e h
    obtain ⟨v, hv⟩ := getContractProject_settles client projectId contractId
    rw [hv] at h
    cases h

/-- C9 on a contract holding two records for project 7, on a project absent
from that contract, on a contract whose request rejects, on one whose
response has no data, and on one unknown to the subgraph. -/
theorem getContractProject_lookup_witness :
    _getContractProject lookupClient 7 "0xA"
        = ⟨.fulfilled (.project (mkProject "0xA" 7)), [.contractProject "0xA" 7]⟩
      ∧ _getContractProject lookupClient 8 "0xA"
        = ⟨.fulfilled .null, [.contractProject "0xA" 8]⟩
      ∧ _getContractProject lookupClient 7 "0xB"
        = ⟨.fulfilled .undefined, [.contractProject "0xB" 7]⟩
      ∧ _getContractProject lookupClient 7 "0xC"
        = ⟨.fulfilled .undefined, [.contractProject "0xC" 7]⟩
      ∧ _getContractProject lookupClient 7 "0xD"
        = ⟨.fulfilled .undefined, [.contractProject "0xD" 7]⟩ :=
  ⟨(getContractProject_lookup lookupClient 7 "0xA").1 (mkProject "0xA" 7) [mkProject "0xA" 8]
      (by decide),
    (getContractProject_lookup lookupClient 8 "0xA").2.1 (by decide),
    (getContractProject_lookup lookupClient 7 "0xB").2.2.1 (by decide),
    (getContractProject_lookup lookupClient 7 "0xC").2.2.2.1 (by decide),
    (getContractProject_lookup lookupClient 7 "0xD").2.2.2.2.1 (by decide)⟩

/-- How `getContractProject` dispatches: a non-empty `contractId` goes to the
single-contract lookup with one request and no use of the Registry; an
omitted, `null` or empty `contractId` goes to the Registry lookup. -/
theorem getContractProject_dispatch (client : Client)
    (CORE_CONTRACTS : List (String × String)) (order : List Nat) (projectId : Nat) :
    (∀ s, s ≠ "" →
        getContractProject client CORE_CONTRACTS order projectId (.str s)
            = some (_getContractProject client projectId s)
          ∧ (_getContractProject client projectId s).requests = [.contractProject s projectId])
      ∧ getContractProject client CORE_CONTRACTS order projectId .undefined
          = getArtBlocksProject client CORE_CONTRACTS order projectId
      ∧ getContractProject client CORE_CONTRACTS order projectId .null
          = getArtBlocksProject client CORE_CONTRACTS order projectId
      ∧ getContractProject client CORE_CONTRACTS order projectId (.str "")
          = getArtBlocksProject client CORE_CONTRACTS order projectId := by
  refine ⟨?_, rfl, rfl, ?_⟩
  · intro s hs
    exact ⟨by simp [getContractProject, hs], getContractProject_requests client projectId s⟩
  · simp [getContractProject]

/-- C10: direct contract bypass, evaluated on the code.  With the passed
`contractId = "0xC"` the call is the single-contract lookup with one request
to that contract.  With the passed `contractId = ""` it is not: the direct
lookup would issue one request to contract `""` and return `null`, but the
call fans out over the Registry, issues three requests to `0xA`, `0xB`, `0xC`
and returns the record found on `0xC`. -/
theorem getContractProject_empty_string_uses_registry :
    getContractProject failingClient registryABC [0, 1, 2] 42 (.str "0xC")
        = some ⟨.fulfilled (.project (mkProject "0xC" 42)), [.contractProject "0xC" 42]⟩
      ∧ _getContractProject failingClient 42 ""
        = ⟨.fulfilled .null, [.contractProject "" 42]⟩
      ∧ getContractProject failingClient registryABC [0, 1, 2] 42 (.str "")
        = some ⟨.fulfilled (.project (mkProject "0xC" 42)),
            [.contractProject "0xA" 42, .contractProject "0xB" 42, .contractProject "0xC" 42]⟩
      ∧ getContractProject failingClient registryABC [0, 1, 2] 42 (.str "")
        ≠ some (_getContractProject failingClient 42 "") := by
  decide

end ArtBot
